import Mathlib

set_option maxHeartbeats 2000000
set_option maxRecDepth 20000

/-!
Shallow embedding of the yq-unity repository (Go sources:
`pkg/yqlib/decoder_unity_yaml.go`, `pkg/yqlib/unity_helpers.go`,
`cmd/unity_extract.go`) and proofs about the claims of its specification.

Strings are modelled as `List Char`; the inputs of interest are ASCII, so
Go byte indices coincide with character indices.  Go regular expressions
that appear in the sources are hand-compiled to deterministic scanners
that implement the same leftmost / greedy matching semantics on their
(star-free, backtracking-free) patterns.
-/

/-! ## Character classes and generic string helpers -/

def formFeedChar : Char := Char.ofNat 12

def vertTabChar : Char := Char.ofNat 11

def nextLineChar : Char := Char.ofNat 133

def nbspChar : Char := Char.ofNat 160

/-- The character class of Go's regexp `\s`, namely `[\t\n\f\r ]`. -/
def isRxSpace (c : Char) : Bool :=
  c = ' ' || c = '\t' || c = '\n' || c = formFeedChar || c = '\r'

/-- Go's `unicode.IsSpace` restricted to Latin-1, as used by `strings.TrimSpace`. -/
def isGoSpace (c : Char) : Bool :=
  c = ' ' || c = '\t' || c = '\n' || c = vertTabChar || c = formFeedChar ||
    c = '\r' || c = nextLineChar || c = nbspChar

def isDigitChar (c : Char) : Bool := '0' ≤ c && c ≤ '9'

/-- The character class `[a-f0-9]` used by the guid patterns. -/
def isHexLower (c : Char) : Bool := isDigitChar c || ('a' ≤ c && c ≤ 'f')

/-- Go `strings.TrimSpace`. -/
def trimSpace (s : List Char) : List Char :=
  ((s.dropWhile isGoSpace).reverse.dropWhile isGoSpace).reverse

/-- Go `strings.Contains needle hay` (argument order: needle first here). -/
def containsSub (needle : List Char) : List Char → Bool
  | [] => needle.isEmpty
  | c :: t => needle.isPrefixOf (c :: t) || containsSub needle t

/-- Strip `pre` from the front of `s` when it is a prefix. -/
def dropPrefixQ (pre s : List Char) : Option (List Char) :=
  if pre.isPrefixOf s then some (s.drop pre.length) else none

/-- Go `bufio.Reader.ReadString delim`: the consumed text (delimiter included
when found), the remaining stream, and whether the delimiter was found
(`false` corresponds to the `io.EOF` error return). -/
def readUntilF (delim : Char) : List Char → List Char × List Char × Bool
  | [] => ([], [], false)
  | c :: rest =>
    if c = delim then ([c], rest, true)
    else
      let r := readUntilF delim rest
      (c :: r.1, r.2.1, r.2.2)

/-- Go `strings.Split s (String.singleton delim)`. -/
def splitChar (delim : Char) : List Char → List (List Char)
  | [] => [[]]
  | c :: t =>
    if c = delim then [] :: splitChar delim t
    else
      match splitChar delim t with
      | [] => [[c]]
      | h :: r => (c :: h) :: r

/-- Fuel-driven worker for `splitDashes`. -/
def splitDashesAux : Nat → List Char → List Char → List (List Char)
  | 0, acc, rest => [acc.reverse ++ rest]
  | fuel + 1, acc, s =>
    if "---".toList.isPrefixOf s then acc.reverse :: splitDashesAux fuel [] (s.drop 3)
    else
      match s with
      | [] => [acc.reverse]
      | c :: t => splitDashesAux fuel (c :: acc) t

/-- Go `strings.Split content "---"`, the document segmentation used by the
extractor and by `unity-extract`. -/
def splitDashes (s : List Char) : List (List Char) :=
  splitDashesAux (s.length + 1) [] s

def lowerStr (s : List Char) : List Char := s.map Char.toLower

/-- Go `strings.Index` (char positions; Go reports byte positions, which agree
on ASCII input). -/
def indexOfSubAux (sub : List Char) : List Char → Nat → Option Nat
  | [], pos => if sub.isEmpty then some pos else none
  | s@(_ :: t), pos => if sub.isPrefixOf s then some pos else indexOfSubAux sub t (pos + 1)

def indexOfSub (sub s : List Char) : Option Nat := indexOfSubAux sub s 0

def lastIndexAux (sub : List Char) : List Char → Nat → Option Nat → Option Nat
  | [], pos, best => if sub.isEmpty then some pos else best
  | s@(_ :: t), pos, best =>
    lastIndexAux sub t (pos + 1) (if sub.isPrefixOf s then some pos else best)

/-- Go `strings.LastIndex`. -/
def lastIndexOfSub (sub s : List Char) : Option Nat := lastIndexAux sub s 0 none

/-! ## Dialect Normalizer (`decoder_unity_yaml.go`, `processReadStream`)

The four-byte peek classification.  Each `peek…` predicate reproduces one of
the guards of the `for` loop in `processReadStream`, applied to the four
bytes returned by `reader.Peek(4)`:
`string(peekBytes[0]) == "\n"`, `tagDirectiveLineRegEx` (`^\s*%TAG`, which on
exactly four bytes can only match the literal `%TAG`), the two separator
forms, `commentLineRegEx` (`^\s*#`) and `yamlDirectiveLineRegEx` (`^\s*%YA`).
-/

def peekBlank (p : List Char) : Bool := p.head? = some '\n'

def peekTagDirective (p : List Char) : Bool := p = "%TAG".toList

def peekSepSpace (p : List Char) : Bool := p = "--- ".toList

def peekSepLine (p : List Char) : Bool := p = "---\n".toList

def peekComment : List Char → Bool
  | [a, b, c, d] =>
    a = '#' ||
      (isRxSpace a && (b = '#' ||
        (isRxSpace b && (c = '#' || (isRxSpace c && d = '#')))))
  | _ => false

def peekYamlDirective : List Char → Bool
  | [a, b, c, d] =>
    (a = '%' && b = 'Y' && c = 'A') || (isRxSpace a && b = '%' && c = 'Y' && d = 'A')
  | _ => false

/-- The placeholder separator token `$yqDocSeparator$` plus newline, as the
code writes it. -/
def sepToken : List Char := "$yqDocSeparator$\n".toList

def vendorTag : List Char := "tag:unity3d.com,2011:".toList

/-- Matcher for the optional tail of `unityRefPattern`:
`,\s*guid:\s*[a-f0-9]+,\s*type:\s*\d+`.  Returns the remainder after the
matched text. -/
def matchGuidTypeTail (s : List Char) : Option (List Char) :=
  match dropPrefixQ [','] s with
  | none => none
  | some s1 =>
    let s2 := s1.dropWhile isRxSpace
    match dropPrefixQ "guid:".toList s2 with
    | none => none
    | some s3 =>
      let s4 := s3.dropWhile isRxSpace
      let hex := s4.takeWhile isHexLower
      let s5 := s4.dropWhile isHexLower
      if hex.isEmpty then none
      else
        match dropPrefixQ [','] s5 with
        | none => none
        | some s6 =>
          let s7 := s6.dropWhile isRxSpace
          match dropPrefixQ "type:".toList s7 with
          | none => none
          | some s8 =>
            let s9 := s8.dropWhile isRxSpace
            let d2 := s9.takeWhile isDigitChar
            if d2.isEmpty then none else some (s9.dropWhile isDigitChar)

/-- Matcher for `unityRefPattern`
`\{fileID:\s*-?\d+(?:,\s*guid:\s*[a-f0-9]+,\s*type:\s*\d+)?\}` at the head of
`s`; returns the remainder after the match. -/
def matchFileIDRefAt (s : List Char) : Option (List Char) :=
  match dropPrefixQ "\x7bfileID:".toList s with
  | none => none
  | some s1 =>
    let s2 := s1.dropWhile isRxSpace
    let s3 := if s2.head? = some '-' then s2.drop 1 else s2
    let digits := s3.takeWhile isDigitChar
    let s4 := s3.dropWhile isDigitChar
    if digits.isEmpty then none
    else
      match matchGuidTypeTail s4 with
      | some s5 => if s5.head? = some '}' then some (s5.drop 1) else none
      | none => if s4.head? = some '}' then some (s4.drop 1) else none

/-- Go `unityRefPattern.ReplaceAllString rest "null"` (fuel-driven leftmost,
non-overlapping replacement). -/
def replaceFileIDRefs : Nat → List Char → List Char
  | 0, s => s
  | _ + 1, [] => []
  | fuel + 1, c :: t =>
    match matchFileIDRefAt (c :: t) with
    | some rest => "null".toList ++ replaceFileIDRefs fuel rest
    | none => c :: replaceFileIDRefs fuel t

/-- Matcher for `unityTagPattern` `!u!\d+` at the head of `s`. -/
def matchUnityTagAt (s : List Char) : Option (List Char) :=
  match dropPrefixQ "!u!".toList s with
  | none => none
  | some s1 =>
    let d := s1.takeWhile isDigitChar
    if d.isEmpty then none else some (s1.dropWhile isDigitChar)

/-- Go `unityTagPattern.ReplaceAllString rest ""`. -/
def stripUnityTags : Nat → List Char → List Char
  | 0, s => s
  | _ + 1, [] => []
  | fuel + 1, c :: t =>
    match matchUnityTagAt (c :: t) with
    | some rest => stripUnityTags fuel rest
    | none => c :: stripUnityTags fuel t

/-- Result of `processReadStream`: the normalized stream handed to the YAML
engine (`contentBuffer`) and the side-channel string builder (`sb`) that
`Init` stores as the session's leading content. -/
structure NormResult where
  contentBuffer : List Char
  sb : List Char
deriving DecidableEq, Repr

/-- The body of `processReadStream`'s `for` loop.  `fuel` is a strict bound
on the number of iterations (each iteration consumes at least one byte, so
`length + 1` always suffices); the `0` case is unreachable for the fuel the
wrapper supplies.  A `Peek(4)` end-of-stream (fewer than four bytes left)
returns what has been accumulated, as the Go code does. -/
def processLoop : Nat → List Char → Bool → List Char → List Char → NormResult
  | 0, _, _, sb, content => ⟨content, sb⟩
  | fuel + 1, s, isUnity, sb, content =>
    if s.length < 4 then ⟨content, sb⟩
    else
      let p := s.take 4
      if peekBlank p then
        let r := readUntilF '\n' s
        if r.2.2 then processLoop fuel r.2.1 isUnity (sb ++ r.1) (content ++ r.1)
        else ⟨content ++ r.1, sb ++ r.1⟩
      else if peekTagDirective p then
        let r := readUntilF '\n' s
        if containsSub vendorTag r.1 then
          processLoop fuel r.2.1 true (sb ++ r.1) content
        else if r.2.2 then processLoop fuel r.2.1 isUnity (sb ++ r.1) (content ++ r.1)
        else ⟨content ++ r.1, sb ++ r.1⟩
      else if peekSepSpace p then
        let r := readUntilF ' ' s
        if isUnity then
          let r2 := readUntilF '\n' r.2.1
          let anchor :=
            if containsSub ['&'] r2.1 then
              let parts := splitChar '&' r2.1
              if 1 < parts.length then " &".toList ++ trimSpace (parts.getD 1 [])
              else []
            else []
          if r.2.2 then
            processLoop fuel r2.2.1 isUnity (sb ++ r.1 ++ r2.1)
              (content ++ "---".toList ++ anchor ++ ['\n'])
          else ⟨content ++ "---".toList ++ anchor ++ ['\n'], sb ++ r.1 ++ r2.1⟩
        else
          if r.2.2 then processLoop fuel r.2.1 isUnity (sb ++ sepToken) (content ++ sepToken)
          else ⟨content ++ sepToken, sb ++ sepToken⟩
      else if peekSepLine p then
        let r := readUntilF '\n' s
        if r.2.2 then processLoop fuel r.2.1 isUnity (sb ++ sepToken) (content ++ sepToken)
        else ⟨content ++ sepToken, sb ++ sepToken⟩
      else if peekComment p || peekYamlDirective p then
        let r := readUntilF '\n' s
        if r.2.2 then processLoop fuel r.2.1 isUnity (sb ++ r.1) (content ++ r.1)
        else ⟨content ++ r.1, sb ++ r.1⟩
      else
        let rest :=
          if isUnity then
            let mid := replaceFileIDRefs s.length s
            stripUnityTags mid.length mid
          else s
        ⟨content ++ rest, sb⟩

/-- `processReadStream` of `decoder_unity_yaml.go` over an in-memory stream. -/
def processReadStream (s : List Char) : NormResult :=
  processLoop (s.length + 1) s false [] []

/-! ## Spec-side dialect-free normalizer

The specification's contract for inputs whose dialect tag-directive is
absent (spec sections 4.1 and 8): document-separator lines become the
placeholder separator token, blank lines, comments, YAML-version directives
and (non-vendor) tag directives are copied through, and once the first
non-structural line is reached the remainder is appended verbatim with
neither of the two dialect-only substitutions applied.  This definition
follows the specification's words and is compared against the code's
`processLoop` by refinement. -/
def plainLoop : Nat → List Char → List Char → List Char → NormResult
  | 0, _, sb, content => ⟨content, sb⟩
  | fuel + 1, s, sb, content =>
    if s.length < 4 then ⟨content, sb⟩
    else
      let p := s.take 4
      if peekBlank p then
        let r := readUntilF '\n' s
        if r.2.2 then plainLoop fuel r.2.1 (sb ++ r.1) (content ++ r.1)
        else ⟨content ++ r.1, sb ++ r.1⟩
      else if peekTagDirective p then
        let r := readUntilF '\n' s
        if r.2.2 then plainLoop fuel r.2.1 (sb ++ r.1) (content ++ r.1)
        else ⟨content ++ r.1, sb ++ r.1⟩
      else if peekSepSpace p then
        let r := readUntilF ' ' s
        if r.2.2 then plainLoop fuel r.2.1 (sb ++ sepToken) (content ++ sepToken)
        else ⟨content ++ sepToken, sb ++ sepToken⟩
      else if peekSepLine p then
        let r := readUntilF '\n' s
        if r.2.2 then plainLoop fuel r.2.1 (sb ++ sepToken) (content ++ sepToken)
        else ⟨content ++ sepToken, sb ++ sepToken⟩
      else if peekComment p || peekYamlDirective p then
        let r := readUntilF '\n' s
        if r.2.2 then plainLoop fuel r.2.1 (sb ++ r.1) (content ++ r.1)
        else ⟨content ++ r.1, sb ++ r.1⟩
      else
        ⟨content ++ s, sb⟩

/-- The dialect-free normalization contract from the spec, as a whole-input
function. -/
def plainNormalize (s : List Char) : NormResult :=
  plainLoop (s.length + 1) s [] []

/-- Ghost scan deciding whether the header-classification phase of
`processReadStream` ever reads a `%TAG` line containing the vendor
namespace string (the only event that sets `isUnityYaml`). -/
def noUnityTagDirective : Nat → List Char → Bool
  | 0, _ => true
  | fuel + 1, s =>
    if s.length < 4 then true
    else
      let p := s.take 4
      if peekBlank p then noUnityTagDirective fuel (readUntilF '\n' s).2.1
      else if peekTagDirective p then
        let r := readUntilF '\n' s
        if containsSub vendorTag r.1 then false
        else noUnityTagDirective fuel r.2.1
      else if peekSepSpace p then noUnityTagDirective fuel (readUntilF ' ' s).2.1
      else if peekSepLine p then noUnityTagDirective fuel (readUntilF '\n' s).2.1
      else if peekComment p || peekYamlDirective p then
        noUnityTagDirective fuel (readUntilF '\n' s).2.1
      else true

/-! ## Header-line grammar used for the structural characterization -/

/-- A comment line: starts with `#`, ends with a newline, no interior
newline. -/
def commentLineB (l : List Char) : Bool :=
  l.head? = some '#' && l.getLast? = some '\n' && l.dropLast.all (fun c => c ≠ '\n')

/-- A `%YAML`-directive line (anything the `^\s*%YA` guard accepts that
starts directly with the directive). -/
def yamlDirLineB (l : List Char) : Bool :=
  "%YA".toList.isPrefixOf l && l.getLast? = some '\n' && l.dropLast.all (fun c => c ≠ '\n')

/-- One header-phase line: blank, bare separator, comment, or
YAML-version directive. -/
def headerLineB (l : List Char) : Bool :=
  l = "\n".toList || l = "---\n".toList || commentLineB l || yamlDirLineB l

/-- The bulk section: at least four bytes long and its first four bytes
match none of the header-phase classifications, so the loop's final branch
fires. -/
def bulkFirstB (b : List Char) : Bool :=
  4 ≤ b.length &&
    !peekBlank (b.take 4) && !peekTagDirective (b.take 4) &&
    !peekSepSpace (b.take 4) && !peekSepLine (b.take 4) &&
    !peekComment (b.take 4) && !peekYamlDirective (b.take 4)

/-- The rewrite the Normalizer applies to one header-phase line: a bare
separator line becomes the placeholder token, everything else is copied. -/
def sepRw (l : List Char) : List Char :=
  if l = "---\n".toList then sepToken else l

/-! ## Document Decoder session (`decoder_unity_yaml.go`, `Init` / `Decode`)

The wrapped `yaml.v3` engine and yq's `CandidateNode` machinery are not part
of the four source files; following the spec they are abstracted: the engine
is a queue of already-parsed documents (empty queue means the engine reports
immediate exhaustion, e.g. for comment-only content), and nodes carry just
the fields the claims mention. -/

inductive NodeKind where
  | scalar
  | mapping
  | sequence
deriving DecidableEq, Repr

structure CandidateNode where
  kind : NodeKind
  value : List Char
  leadingContent : List Char
  document : Nat
deriving DecidableEq, Repr

/-- Modelled from the spec: `createScalarNode(nil, "")` of the yq core (not
under the provided sources) builds an empty scalar node; `blankNodeWithComment`
attaches the decoder's leading content to it. -/
def blankNodeWithComment (lc : List Char) : CandidateNode :=
  ⟨NodeKind.scalar, [], lc, 0⟩

/-- Session state of `unityYamlDecoder`.  `docs` abstracts the stream of
documents the wrapped standard YAML engine will produce from the normalized
stream; `lcpp` is `prefs.LeadingContentPreProcessing`. -/
structure UnityDecoderSession where
  docs : List CandidateNode
  leadingContent : List Char
  bufferRead : List Char
  readAnything : Bool
  documentIndex : Nat
  lcpp : Bool
deriving DecidableEq, Repr

/-- `Init`: run the Normalizer, store its side-channel output as the
session's leading content, reset the buffers and counters. -/
def unityInit (input : List Char) (docs : List CandidateNode) (lcpp : Bool) :
    UnityDecoderSession :=
  { docs := docs
    leadingContent := (processReadStream input).sb
    bufferRead := []
    readAnything := false
    documentIndex := 0
    lcpp := lcpp }

inductive DecodeErr where
  | eof
deriving DecidableEq, Repr

/-- `Decode`: one step of the session state machine.  An empty `docs` queue
plays the role of the wrapped engine returning `io.EOF`. -/
def unityDecode (st : UnityDecoderSession) :
    Except DecodeErr CandidateNode × UnityDecoderSession :=
  match st.docs with
  | [] =>
    if !st.leadingContent.isEmpty && !st.readAnything then
      (Except.ok (blankNodeWithComment st.leadingContent), { st with readAnything := true })
    else if !st.lcpp && !st.readAnything then
      let lc := st.bufferRead
      if !lc.isEmpty then
        (Except.ok (blankNodeWithComment lc),
         { st with readAnything := true, leadingContent := lc })
      else
        (Except.error DecodeErr.eof,
         { st with readAnything := true, leadingContent := lc })
    else (Except.error DecodeErr.eof, st)
  | d :: rest =>
    let withDoc : CandidateNode := { d with document := st.documentIndex }
    let node :=
      if !st.leadingContent.isEmpty then { withDoc with leadingContent := st.leadingContent }
      else withDoc
    (Except.ok node,
     { st with
        docs := rest
        leadingContent := if !st.leadingContent.isEmpty then [] else st.leadingContent
        readAnything := true
        documentIndex := st.documentIndex + 1 })

/-! ## Node-Graph Extractor (`unity_helpers.go`) -/

structure UnityGraphNode where
  FileID : List Char
  Name : List Char
  ScriptType : List Char
  Properties : List (List Char × List Char)
  SerializedData : List Char
deriving DecidableEq, Repr

/-- Leftmost application of a head matcher over all start positions of `s`
(the scan loop of Go's `FindStringSubmatch`). -/
def scanOpt {α : Type} (m : List Char → Option α) : List Char → Option α
  | [] => m []
  | s@(_ :: t) =>
    match m s with
    | some a => some a
    | none => scanOpt m t

/-- Greedy continuation `\s*(.+)` of the field patterns, at the given
position: the capture of `(.+)` together with the number of characters the
whole continuation consumes.  Go's `.` does not match a newline and `\s`
does, so the greedy whitespace run backs off to the last non-newline
character when nothing else follows. -/
def capWithLen (t : List Char) : Option (List Char × Nat) :=
  let w := t.takeWhile isRxSpace
  let r := t.dropWhile isRxSpace
  if !r.isEmpty then
    let cap := r.takeWhile (fun c => c ≠ '\n')
    some (cap, w.length + cap.length)
  else
    match w.reverse.findIdx? (fun c => c ≠ '\n') with
    | some i => some ([w.reverse.getD i ' '], w.length - i)
    | none => none

/-- Leftmost capture of a pattern `<lit>\s*(.+)` (e.g. `m_Name:\s*(.+)`),
Go `FindStringSubmatch`'s group 1. -/
def scanCapture (lit : List Char) : List Char → Option (List Char)
  | [] => none
  | c :: t =>
    if lit.isPrefixOf (c :: t) then
      match capWithLen ((c :: t).drop lit.length) with
      | some (cap, _) => some cap
      | none => scanCapture lit t
    else scanCapture lit t

/-- Head matcher for `fileIDPattern` `!u!\d+\s*&(-?\d+)`; returns the
capture group. -/
def matchUHeaderAt (s : List Char) : Option (List Char) :=
  match dropPrefixQ "!u!".toList s with
  | none => none
  | some s1 =>
    let d := s1.takeWhile isDigitChar
    let s2 := s1.dropWhile isDigitChar
    if d.isEmpty then none
    else
      let s3 := s2.dropWhile isRxSpace
      match dropPrefixQ ['&'] s3 with
      | none => none
      | some s4 =>
        let sign : List Char := if s4.head? = some '-' then ['-'] else []
        let s5 := if s4.head? = some '-' then s4.drop 1 else s4
        let d2 := s5.takeWhile isDigitChar
        if d2.isEmpty then none else some (sign ++ d2)

/-- The `fileID` field of a document segment (empty when the header pattern
does not match, as in the Go code). -/
def extractFileIDHeader (doc : List Char) : List Char :=
  (scanOpt matchUHeaderAt doc).getD []

/-- Head matcher for `scriptPattern`
`m_Script:\s*\{fileID:\s*\d+,\s*guid:\s*([a-f0-9]+)`. -/
def matchScriptAt (s : List Char) : Option (List Char) :=
  match dropPrefixQ "m_Script:".toList s with
  | none => none
  | some s1 =>
    let s2 := s1.dropWhile isRxSpace
    match dropPrefixQ "\x7bfileID:".toList s2 with
    | none => none
    | some s3 =>
      let s4 := s3.dropWhile isRxSpace
      let d := s4.takeWhile isDigitChar
      let s5 := s4.dropWhile isDigitChar
      if d.isEmpty then none
      else
        match dropPrefixQ [','] s5 with
        | none => none
        | some s6 =>
          let s7 := s6.dropWhile isRxSpace
          match dropPrefixQ "guid:".toList s7 with
          | none => none
          | some s8 =>
            let s9 := s8.dropWhile isRxSpace
            let hex := s9.takeWhile isHexLower
            if hex.isEmpty then none else some hex

def quoteChar : Char := Char.ofNat 39

/-- Head matcher for `serializedPattern` `serializedData:\s*'([^']*)'`. -/
def matchSerializedAt (s : List Char) : Option (List Char) :=
  match dropPrefixQ "serializedData:".toList s with
  | none => none
  | some s1 =>
    let s2 := s1.dropWhile isRxSpace
    match dropPrefixQ [quoteChar] s2 with
    | none => none
    | some s3 =>
      let cap := s3.takeWhile (fun c => c ≠ quoteChar)
      let rest := s3.dropWhile (fun c => c ≠ quoteChar)
      if rest.head? = some quoteChar then some cap else none

/-- The fixed property catalog of `ParseUnityGraphNodes`, in the source's
literal order. -/
def propertyCatalog : List (List Char) :=
  ["Extents".toList, "GridCellSize".toList, "MinimumDistance".toList,
   "RoadPoseDistance".toList, "Spacing".toList, "Jittering".toList,
   "EligibleForInjection".toList]

/-- The property map of one document segment: each catalog entry `K` is
matched as `K:\s*(.+)` and its trimmed capture recorded. -/
def extractProps (doc : List Char) : List (List Char × List Char) :=
  propertyCatalog.filterMap fun key =>
    match scanCapture (key ++ [':']) doc with
    | some cap => some (key, trimSpace cap)
    | none => none

/-- `ParseUnityGraphNodes` of `unity_helpers.go`.  The Go function's error
result is always `nil`; the `Except` mirrors its `(nodes, error)` signature. -/
def ParseUnityGraphNodes (content : List Char) : Except (List Char) (List UnityGraphNode) :=
  Except.ok <|
    (splitDashes content).filterMap fun doc =>
      if trimSpace doc = [] then none
      else
        let fileID := extractFileIDHeader doc
        let name := trimSpace ((scanCapture "m_Name:".toList doc).getD [])
        let scriptType := (scanOpt matchScriptAt doc).getD []
        let properties := extractProps doc
        let serializedData := (scanOpt matchSerializedAt doc).getD []
        if name ≠ [] then
          some ⟨fileID, name, scriptType, properties, serializedData⟩
        else none

/-! ## Graph Query Helpers (`unity_helpers.go`) -/

/-- `FilterNodesByType`.  The Go function compiles its `typePattern` string
with `regexp.MustCompile` and keeps nodes whose name matches; the compiled
matcher is modelled as a Boolean predicate on names. -/
def FilterNodesByType (nodes : List UnityGraphNode) (pat : List Char → Bool) :
    List UnityGraphNode :=
  nodes.filter fun n => pat n.Name

/-- Matcher for `set` (case-insensitively) reachable from the current
position through non-newline characters: the `.*set` part of the pattern. -/
def searchSetCI : List Char → Bool
  | [] => false
  | c :: t => "set".toList.isPrefixOf (lowerStr (c :: t)) || (c ≠ '\n' && searchSetCI t)

/-- Matcher for the `pose.*set` alternative of the filter pattern. -/
def poseSetMatch : List Char → Bool
  | [] => false
  | c :: t =>
    ("pose".toList.isPrefixOf (lowerStr (c :: t)) && searchSetCI ((c :: t).drop 4)) ||
      poseSetMatch t

/-- The compiled matcher of the Go regexp `(?i)(spawner|pose.*set)` used by
`ExtractSpawnerDistances`. -/
def spawnerPoseSetPattern (name : List Char) : Bool :=
  containsSub "spawner".toList (lowerStr name) || poseSetMatch name

/-- The distance-key test of `ExtractSpawnerDistances`: the lower-cased key
contains one of the five recognized substrings. -/
def distanceKeyB (key : List Char) : Bool :=
  containsSub "distance".toList (lowerStr key) ||
    containsSub "extent".toList (lowerStr key) ||
    containsSub "spacing".toList (lowerStr key) ||
    containsSub "cell".toList (lowerStr key) ||
    containsSub "radius".toList (lowerStr key)

/-- `ExtractSpawnerDistances`.  The Go result map is modelled as an
association list in node order (map iteration order is irrelevant to the
claims); the key is `fmt.Sprintf("%s (%s)", node.Name, node.FileID)`. -/
def ExtractSpawnerDistances (nodes : List UnityGraphNode) :
    List (List Char × List (List Char × List Char)) :=
  (FilterNodesByType nodes spawnerPoseSetPattern).filterMap fun node =>
    if node.Properties ≠ [] then
      let distanceProps := node.Properties.filter fun kv => distanceKeyB kv.1
      if distanceProps ≠ [] then
        some (node.Name ++ " (".toList ++ node.FileID ++ [')'], distanceProps)
      else none
    else none

/-- Head matcher (with match length) for the reference pattern
`\{fileID:\s*<id>\}` that `GetNodeConnections` builds with `fmt.Sprintf`;
the node id is interpolated verbatim (for the integer ids this repository
uses, the interpolated text is a regex literal). -/
def matchRefAt (fid : List Char) (s : List Char) : Option Nat :=
  match dropPrefixQ "\x7bfileID:".toList s with
  | none => none
  | some s1 =>
    let w := s1.takeWhile isRxSpace
    let s2 := s1.dropWhile isRxSpace
    match dropPrefixQ fid s2 with
    | none => none
    | some s3 =>
      if s3.head? = some '}' then some (8 + w.length + fid.length + 1) else none

/-- Worker for `FindAllStringIndex`: leftmost, non-overlapping match start
positions. -/
def findAllRefAux (fid : List Char) : Nat → List Char → Nat → List Nat
  | 0, _, _ => []
  | fuel + 1, s, pos =>
    match s with
    | [] => []
    | _ :: t =>
      match matchRefAt fid s with
      | some len => pos :: findAllRefAux fid fuel (s.drop len) (pos + len)
      | none => findAllRefAux fid fuel t (pos + 1)

/-- The match positions of `pattern.FindAllStringIndex(content, -1)` in
`GetNodeConnections`. -/
def fileIDRefMatches (content fid : List Char) : List Nat :=
  findAllRefAux fid content.length content 0

/-- `GetNodeConnections` of `unity_helpers.go`. -/
def GetNodeConnections (content : List Char) (node : UnityGraphNode) :
    List (List Char) :=
  (fileIDRefMatches content node.FileID).filterMap fun idx =>
    let beforeMatch := content.take idx
    match lastIndexOfSub "---".toList beforeMatch with
    | none => none
    | some lastDocStart =>
      let after := content.drop (lastDocStart + 3)
      let docContent :=
        match indexOfSub "---".toList after with
        | some nextDocStart =>
          (content.take (lastDocStart + 3 + nextDocStart)).drop lastDocStart
        | none => content.drop lastDocStart
      scanOpt matchUHeaderAt docContent

/-! ## Extraction command (`cmd/unity_extract.go`) -/

/-- The five-entry property catalog of `extractSpawners` (the command-side
catalog, without `Jittering` / `EligibleForInjection`). -/
def spawnerCatalog : List (List Char) :=
  ["Extents".toList, "GridCellSize".toList, "MinimumDistance".toList,
   "RoadPoseDistance".toList, "Spacing".toList]

/-- `extractSpawners`: the sequence of printed `(name, properties)` blocks.
A document is printed only when it contains the literals `"Spawner"` and
`"m_Name:"`, its name pattern matches, and at least one catalog property is
found. -/
def extractSpawners (content : List Char) :
    List (List Char × List (List Char × List Char)) :=
  (splitDashes content).filterMap fun doc =>
    if containsSub "Spawner".toList doc && containsSub "m_Name:".toList doc then
      match scanCapture "m_Name:".toList doc with
      | some cap =>
        let name := trimSpace cap
        let properties := spawnerCatalog.filterMap fun key =>
          match scanCapture (key ++ [':']) doc with
          | some c => some (key, trimSpace c)
          | none => none
        if properties ≠ [] then some (name, properties) else none
      | none => none
    else none

/-- `extractNodes`: the printed node-name list. -/
def extractNodes (content : List Char) : List (List Char) :=
  (splitDashes content).filterMap fun doc =>
    if containsSub "m_Name:".toList doc then
      (scanCapture "m_Name:".toList doc).map trimSpace
    else none

/-- Worker for `FindAllStringSubmatch` of the property pattern
`<property>:\s*(.+)`: leftmost, non-overlapping captures. -/
def findAllCapAux (lit : List Char) : Nat → List Char → List (List Char)
  | 0, _ => []
  | fuel + 1, s =>
    match s with
    | [] => []
    | _ :: t =>
      if lit.isPrefixOf s then
        match capWithLen (s.drop lit.length) with
        | some (cap, n) => cap :: findAllCapAux lit fuel (s.drop (lit.length + n))
        | none => findAllCapAux lit fuel t
      else findAllCapAux lit fuel t

/-- All captures of `regexp.QuoteMeta(property) + ":\s*(.+)"` over the file
content, as in `extractProperty`. -/
def findAllPropCaptures (property content : List Char) : List (List Char) :=
  findAllCapAux (property ++ [':']) content.length content

/-- Occurrence counting of `extractProperty` (a Go map, modelled as an
association list in first-seen order). -/
def bumpCount (acc : List (List Char × Nat)) (v : List Char) : List (List Char × Nat) :=
  match acc with
  | [] => [(v, 1)]
  | (k, n) :: t => if k = v then (k, n + 1) :: t else (k, n) :: bumpCount t v

def countValues (vals : List (List Char)) : List (List Char × Nat) :=
  vals.foldl bumpCount []

/-- Output of `extractProperty`: either the soft "Property 'X' not found"
message or the value/occurrence listing.  Both are `nil`-error outcomes in
the Go code. -/
inductive PropOut where
  | notFound (property : List Char)
  | values (vals : List (List Char × Nat))
deriving DecidableEq, Repr

def extractProperty (content property : List Char) : PropOut :=
  let found := findAllPropCaptures property content
  if found.isEmpty then PropOut.notFound property
  else PropOut.values (countValues (found.map trimSpace))

/-- Structured stdout of the three extraction modes. -/
inductive ExtractOut where
  | spawners (entries : List (List Char × List (List Char × List Char))) (count : Nat)
  | nodes (names : List (List Char))
  | property (res : PropOut)
deriving DecidableEq, Repr

/-- `unityExtractFunc` of `cmd/unity_extract.go` over an abstract file
system `fs`.  The second component records the files read (`os.ReadFile`
calls), in order; note the read happens before the extraction-type switch,
exactly as in the source. -/
def unityExtractFunc (fs : List Char → Option (List Char))
    (extractType filename propertyName : List Char) :
    Except (List Char) ExtractOut × List (List Char) :=
  match fs filename with
  | none => (Except.error ("failed to read file".toList), [filename])
  | some content =>
    (if extractType = "spawners".toList then
      Except.ok (ExtractOut.spawners (extractSpawners content) (extractSpawners content).length)
    else if extractType = "nodes".toList then
      Except.ok (ExtractOut.nodes (extractNodes content))
    else if extractType = "property".toList then
      if propertyName = [] then
        Except.error ("property extraction requires --property flag".toList)
      else Except.ok (ExtractOut.property (extractProperty content propertyName))
    else Except.error ("unknown extraction type: ".toList ++ extractType),
     [filename])

/-! ## Sample inputs used by counterexamples and witnesses -/

/-- An abstract file system with a single readable asset file. -/
def fsSample : List Char → Option (List Char) := fun f =>
  if f = "file.asset".toList then some "m_Name: X\nExtents: 2\n".toList else none

/-- A document whose name matches the helper's case-insensitive spawner
pattern but not the command's case-sensitive `"Spawner"` literal. -/
def spawnerSample : List Char :=
  "--- !u!1 &7\nMonoBehaviour:\n  m_Name: grid spawner\n  Spacing: 3\n".toList

/-- The single graph node extracted from `spawnerSample`. -/
def spawnerSampleNode : UnityGraphNode :=
  ⟨"7".toList, "grid spawner".toList, [], [("Spacing".toList, "3".toList)], []⟩

/-! # Theorems -/

/-- Claim C4: `ParseUnityGraphNodes` is total: it returns `ok` on every
input, and every materialized `GraphNode` has a non-empty name (segments
from which no name is extracted are skipped, never materialized with an
empty name). -/
theorem claim_C4 : ∀ content : List Char,
    ∃ nodes, ParseUnityGraphNodes content = Except.ok nodes ∧
      ∀ n ∈ nodes, n.Name ≠ [] := by
  intro content
  refine ⟨_, rfl, ?_⟩
  intro n hn
  rw [List.mem_filterMap] at hn
  obtain ⟨doc, -, hf⟩ := hn
  dsimp only at hf
  split at hf
  · exact absurd hf (by simp)
  · split at hf
    · have hX := Option.some.inj hf
      subst hX
      assumption
    · exact absurd hf (by simp)

/-- Witness for C4: the theorem applied at a concrete input. -/
theorem claim_C4_witness :
    ∃ nodes, ParseUnityGraphNodes spawnerSample = Except.ok nodes ∧
      ∀ n ∈ nodes, n.Name ≠ [] :=
  claim_C4 spawnerSample

/-- Claim C5: every property key appearing in an entry of
`ExtractSpawnerDistances` contains (case-insensitively) one of the five
recognized substrings, and a matched spawner node with an empty qualifying
subset contributes no entry (every entry's property list is non-empty). -/
theorem claim_C5 :
    ∀ (nodes : List UnityGraphNode) (e : List Char × List (List Char × List Char)),
      e ∈ ExtractSpawnerDistances nodes →
      e.2 ≠ [] ∧ ∀ kv ∈ e.2, distanceKeyB kv.1 = true := by
  intro nodes e he
  rw [ExtractSpawnerDistances, List.mem_filterMap] at he
  obtain ⟨node, -, hf⟩ := he
  dsimp only at hf
  split at hf
  · split at hf
    · next hne =>
      have hX := Option.some.inj hf
      subst hX
      refine ⟨hne, ?_⟩
      intro kv hkv
      exact (List.mem_filter.mp hkv).2
    · exact absurd hf (by simp)
  · exact absurd hf (by simp)

/-- Witness for C5: the theorem applied at a concrete node list and entry. -/
theorem claim_C5_witness :
    (("grid spawner (7)".toList, [("Spacing".toList, "3".toList)]) ∈
        ExtractSpawnerDistances [spawnerSampleNode]) ∧
    ([("Spacing".toList, "3".toList)] : List (List Char × List Char)) ≠ [] ∧
    ∀ kv ∈ [("Spacing".toList, "3".toList)], distanceKeyB kv.1 = true :=
  ⟨by decide,
   claim_C5 [spawnerSampleNode] ("grid spawner (7)".toList, [("Spacing".toList, "3".toList)])
     (by decide)⟩

/-- Claim C2 counterexample: the text `{fileID: 5}` holds exactly one
cross-reference match for the node id `5`, yet `GetNodeConnections`
returns no document id for it (there is no preceding separator token), so
the function does not return exactly one id per occurrence. -/
theorem claim_C2_counterexample :
    GetNodeConnections "{fileID: 5}".toList ⟨"5".toList, "X".toList, [], [], []⟩ = [] ∧
    (fileIDRefMatches "{fileID: 5}".toList "5".toList).length = 1 := by
  constructor
  · decide
  · decide

/-- Claim C2 (amended): `GetNodeConnections` returns at most one document id
per cross-reference match (a match contributes an id only when a separator
token precedes it and the enclosing segment's identity header parses), and
duplicate ids from repeated matches are kept, not deduplicated. -/
theorem claim_C2 :
    (∀ (content : List Char) (node : UnityGraphNode),
      (GetNodeConnections content node).length ≤
        (fileIDRefMatches content node.FileID).length) ∧
    GetNodeConnections "--- !u!1 &9\na: {fileID: 5}\nb: {fileID: 5}\n".toList
        ⟨"5".toList, "X".toList, [], [], []⟩ = ["9".toList, "9".toList] := by
  constructor
  · intro content node
    exact List.length_filterMap_le _ _
  · decide

/-- Claim C3 counterexample: with the input file readable, an unrecognized
extraction kind still performs file I/O first — the read trace contains the
file even though the command fails with the misuse error, contradicting
"the input file is not read". -/
theorem claim_C3_counterexample :
    unityExtractFunc fsSample "bogus".toList "file.asset".toList [] =
      (Except.error ("unknown extraction type: bogus".toList),
       ["file.asset".toList]) := by
  rfl

/-- Claim C3 (amended): an unrecognized extraction kind, or the `property`
kind with no property-name flag, fails with a fatal error — but the input
file is read first (exactly one read occurs before the misuse error). -/
theorem claim_C3 :
    ∀ (fs : List Char → Option (List Char)) (ty f prop content : List Char),
      fs f = some content →
      ((ty ≠ "spawners".toList ∧ ty ≠ "nodes".toList ∧ ty ≠ "property".toList) ∨
        (ty = "property".toList ∧ prop = [])) →
      ∃ msg, unityExtractFunc fs ty f prop = (Except.error msg, [f]) := by
  intro fs ty f prop content hread hcase
  unfold unityExtractFunc
  rw [hread]
  dsimp only
  rcases hcase with ⟨h1, h2, h3⟩ | ⟨h1, h2⟩
  · exact ⟨"unknown extraction type: ".toList ++ ty,
      by rw [if_neg h1, if_neg h2, if_neg h3]⟩
  · subst h1
    subst h2
    refine ⟨"property extraction requires --property flag".toList, ?_⟩
    rw [if_neg (by decide : ¬ ("property".toList = "spawners".toList)),
      if_neg (by decide : ¬ ("property".toList = "nodes".toList)),
      if_pos rfl, if_pos rfl]

/-- Witness for C3: the theorem applied to the sample file system with the
unknown kind `bogus`. -/
theorem claim_C3_witness :
    ∃ msg, unityExtractFunc fsSample "bogus".toList "file.asset".toList [] =
      (Except.error msg, ["file.asset".toList]) :=
  claim_C3 fsSample "bogus".toList "file.asset".toList []
    "m_Name: X\nExtents: 2\n".toList (by rfl)
    (Or.inl ⟨by decide, by decide, by decide⟩)

/-- Claim C8: a readable file with a property name matching no occurrence
yields the soft "not found" outcome with a `nil` error (success), whereas
an unrecognized extraction kind is a hard error. -/
theorem claim_C8 :
    (∀ (fs : List Char → Option (List Char)) (f content prop : List Char),
      fs f = some content → prop ≠ [] →
      findAllPropCaptures prop content = [] →
      unityExtractFunc fs "property".toList f prop =
        (Except.ok (ExtractOut.property (PropOut.notFound prop)), [f])) ∧
    (∀ (fs : List Char → Option (List Char)) (f content ty prop : List Char),
      fs f = some content →
      ty ≠ "spawners".toList → ty ≠ "nodes".toList → ty ≠ "property".toList →
      ∃ msg, unityExtractFunc fs ty f prop = (Except.error msg, [f])) := by
  constructor
  · intro fs f content prop hread hprop hmiss
    unfold unityExtractFunc
    rw [hread]
    dsimp only
    rw [if_neg (by decide : ¬ ("property".toList = "spawners".toList)),
      if_neg (by decide : ¬ ("property".toList = "nodes".toList)),
      if_pos rfl, if_neg hprop]
    unfold extractProperty
    rw [hmiss]
    rfl
  · intro fs f content ty prop hread h1 h2 h3
    unfold unityExtractFunc
    rw [hread]
    dsimp only
    exact ⟨"unknown extraction type: ".toList ++ ty,
      by rw [if_neg h1, if_neg h2, if_neg h3]⟩

/-- Witness for C8: the theorem applied to the sample file system with the
absent property `Radius` and with the unknown kind `weird`. -/
theorem claim_C8_witness :
    unityExtractFunc fsSample "property".toList "file.asset".toList "Radius".toList =
      (Except.ok (ExtractOut.property (PropOut.notFound "Radius".toList)),
       ["file.asset".toList]) ∧
    ∃ msg, unityExtractFunc fsSample "weird".toList "file.asset".toList [] =
      (Except.error msg, ["file.asset".toList]) :=
  ⟨claim_C8.1 fsSample "file.asset".toList "m_Name: X\nExtents: 2\n".toList
      "Radius".toList (by rfl) (by decide) (by decide),
   claim_C8.2 fsSample "file.asset".toList "m_Name: X\nExtents: 2\n".toList
      "weird".toList [] (by rfl) (by decide) (by decide) (by decide)⟩

/-- Claim C9: while the loop is still classifying header lines, an unread
remainder shorter than four bytes with no trailing newline makes the
four-byte peek report end-of-stream: the loop returns successfully with
those bytes absent from both outputs.  Concretely, a comment line followed
by a final two-byte line without a newline normalizes to the comment line
alone. -/
theorem claim_C9 :
    (∀ (fuel : Nat) (s sb content : List Char) (isUnity : Bool),
      s.length < 4 → s.getLast? ≠ some '\n' →
      processLoop (fuel + 1) s isUnity sb content = ⟨content, sb⟩) ∧
    processReadStream "# c\nab".toList = ⟨"# c\n".toList, "# c\n".toList⟩ := by
  constructor
  · intro fuel s sb content isUnity h _hnl
    simp only [processLoop]
    rw [if_pos h]
  · rfl

/-- Witness for C9: the theorem's loop statement applied at a concrete
two-byte remainder with no trailing newline. -/
theorem claim_C9_witness :
    processLoop 3 "ab".toList false "# c\n".toList "# c\n".toList =
      ⟨"# c\n".toList, "# c\n".toList⟩ :=
  claim_C9.1 2 "ab".toList "# c\n".toList "# c\n".toList false (by decide) (by decide)

/-- Claim C7: a session whose underlying engine yields no document but whose
Normalizer captured non-empty leading content returns, on the first decode
call, exactly one empty scalar node carrying that content, and reports
exhaustion on the next call (the synthesized node appears at most once per
session). -/
theorem claim_C7 :
    ∀ (input : List Char) (lcpp : Bool),
      (processReadStream input).sb ≠ [] →
      (unityDecode (unityInit input [] lcpp)).1 =
          Except.ok (blankNodeWithComment (processReadStream input).sb) ∧
      (unityDecode (unityDecode (unityInit input [] lcpp)).2).1 =
          Except.error DecodeErr.eof := by
  intro input lcpp h
  have hne : (processReadStream input).sb.isEmpty = false := by
    cases hsb : (processReadStream input).sb with
    | nil => exact absurd hsb h
    | cons a t => rfl
  constructor
  · simp [unityDecode, unityInit, hne]
  · simp [unityDecode, unityInit, hne]

/-- Witness for C7: the theorem applied to the comment-plus-directive input
from the specification scenario. -/
theorem claim_C7_witness :
    (unityDecode (unityInit "# hello\n%YAML 1.1\n".toList [] false)).1 =
        Except.ok (blankNodeWithComment
          (processReadStream "# hello\n%YAML 1.1\n".toList).sb) ∧
    (unityDecode (unityDecode (unityInit "# hello\n%YAML 1.1\n".toList [] false)).2).1 =
        Except.error DecodeErr.eof :=
  claim_C7 "# hello\n%YAML 1.1\n".toList false (by decide)

/-- Claim C10: the CLI `spawners` extraction prints a document only when its
raw segment contains the case-sensitive literals `Spawner` and `m_Name:`,
and the printed properties come from the five-entry command catalog; and
there is an input (`spawnerSample`, name `grid spawner`) that the helper
`ExtractSpawnerDistances` includes but the CLI output omits. -/
theorem claim_C10 :
    (∀ (content : List Char) (e : List Char × List (List Char × List Char)),
      e ∈ extractSpawners content →
      ∃ doc ∈ splitDashes content,
        containsSub "Spawner".toList doc = true ∧
        containsSub "m_Name:".toList doc = true ∧
        ∀ kv ∈ e.2, kv.1 ∈ spawnerCatalog) ∧
    (ParseUnityGraphNodes spawnerSample = Except.ok [spawnerSampleNode] ∧
     ExtractSpawnerDistances [spawnerSampleNode] ≠ [] ∧
     extractSpawners spawnerSample = []) := by
  constructor
  · intro content e he
    rw [extractSpawners, List.mem_filterMap] at he
    obtain ⟨doc, hdoc, hf⟩ := he
    dsimp only at hf
    split at hf
    · next hcond =>
      obtain ⟨hsp, hnm⟩ := Bool.and_eq_true_iff.mp hcond
      refine ⟨doc, hdoc, hsp, hnm, ?_⟩
      split at hf
      · split at hf
        · have hX := Option.some.inj hf
          subst hX
          intro kv hkv
          rw [List.mem_filterMap] at hkv
          obtain ⟨key, hkey, hkv2⟩ := hkv
          split at hkv2
          · have := Option.some.inj hkv2
            rw [← this]
            exact hkey
          · exact absurd hkv2 (by simp)
        · exact absurd hf (by simp)
      · exact absurd hf (by simp)
    · exact absurd hf (by simp)
  · refine ⟨by rfl, by decide, by rfl⟩

/-- Witness for C10: the universal part applied to a concrete content whose
single document contains the literal `Spawner`. -/
theorem claim_C10_witness :
    ∃ doc ∈ splitDashes "m_Name: Spawner One\nExtents: 4\n".toList,
      containsSub "Spawner".toList doc = true ∧
      containsSub "m_Name:".toList doc = true ∧
      ∀ kv ∈ [("Extents".toList, "4".toList)], kv.1 ∈ spawnerCatalog :=
  claim_C10.1 "m_Name: Spawner One\nExtents: 4\n".toList
    ("Spawner One".toList, [("Extents".toList, "4".toList)]) (by decide)

/-- Helper for C1: whenever the ghost scan certifies that no vendor tag
directive is classified during header scanning, the code's loop (started in
non-dialect mode) coincides with the spec's dialect-free loop. -/
theorem plain_refine : ∀ (fuel : Nat) (s sb content : List Char),
    noUnityTagDirective fuel s = true →
    processLoop fuel s false sb content = plainLoop fuel s sb content := by
  intro fuel
  induction fuel with
  | zero => intro s sb content _h; rfl
  | succ n ih =>
    intro s sb content h
    simp only [noUnityTagDirective] at h
    simp only [processLoop, plainLoop]
    by_cases h4 : s.length < 4
    · simp only [if_pos h4]
    · simp only [if_neg h4] at h ⊢
      by_cases hb : peekBlank (s.take 4) = true
      · simp only [if_pos hb] at h ⊢
        by_cases hfd : (readUntilF '\n' s).2.2 = true
        · simp only [if_pos hfd]
          exact ih _ _ _ h
        · simp only [if_neg hfd]
      · simp only [if_neg hb] at h ⊢
        by_cases ht : peekTagDirective (s.take 4) = true
        · simp only [if_pos ht] at h ⊢
          by_cases hv : containsSub vendorTag (readUntilF '\n' s).1 = true
          · rw [if_pos hv] at h
            exact absurd h (by simp)
          · simp only [if_neg hv] at h ⊢
            by_cases hfd : (readUntilF '\n' s).2.2 = true
            · simp only [if_pos hfd]
              exact ih _ _ _ h
            · simp only [if_neg hfd]
        · simp only [if_neg ht] at h ⊢
          by_cases hsp : peekSepSpace (s.take 4) = true
          · simp only [if_pos hsp] at h ⊢
            rw [if_neg (show ¬ ((false : Bool) = true) by simp)]
            by_cases hfd : (readUntilF ' ' s).2.2 = true
            · simp only [if_pos hfd]
              exact ih _ _ _ h
            · simp only [if_neg hfd]
          · simp only [if_neg hsp] at h ⊢
            by_cases hsl : peekSepLine (s.take 4) = true
            · simp only [if_pos hsl] at h ⊢
              by_cases hfd : (readUntilF '\n' s).2.2 = true
              · simp only [if_pos hfd]
                exact ih _ _ _ h
              · simp only [if_neg hfd]
            · simp only [if_neg hsl] at h ⊢
              by_cases hc : (peekComment (s.take 4) || peekYamlDirective (s.take 4)) = true
              · simp only [if_pos hc] at h ⊢
                by_cases hfd : (readUntilF '\n' s).2.2 = true
                · simp only [if_pos hfd]
                  exact ih _ _ _ h
                · simp only [if_neg hfd]
              · simp only [if_neg hc] at h ⊢
                rw [if_neg (show ¬ ((false : Bool) = true) by simp)]

/-- Claim C1 counterexample: an input with no `%TAG` line at all whose
document-separator line is preceded by a non-structural line: the separator
survives verbatim in the normalized output and the placeholder token never
appears, so the Normalizer does not rewrite every document-separator
line. -/
theorem claim_C1_counterexample :
    noUnityTagDirective ("a: 1\n---\nb: 2\n".toList.length + 1)
        "a: 1\n---\nb: 2\n".toList = true ∧
    (processReadStream "a: 1\n---\nb: 2\n".toList).contentBuffer =
        "a: 1\n---\nb: 2\n".toList ∧
    containsSub "$yqDocSeparator$".toList
        (processReadStream "a: 1\n---\nb: 2\n".toList).contentBuffer = false := by
  refine ⟨by decide, by rfl, by decide⟩

/-- Claim C1 (amended): for any input in which the header scan classifies no
vendor tag directive, normalization coincides with the dialect-free
transform: document-separator lines met during header classification become
the placeholder token, and the bulk remainder is appended verbatim — in
particular neither dialect-only inline substitution is ever applied. -/
theorem claim_C1 : ∀ s : List Char,
    noUnityTagDirective (s.length + 1) s = true →
    processReadStream s = plainNormalize s := fun s h =>
  plain_refine (s.length + 1) s [] [] h

/-- Witness for C1: the theorem applied at a concrete header-plus-body
input. -/
theorem claim_C1_witness :
    processReadStream "# h\n---\na: 1\n".toList =
      plainNormalize "# h\n---\na: 1\n".toList :=
  claim_C1 "# h\n---\na: 1\n".toList (by decide)

/-- Unfolding of one non-delimiter step of `readUntilF`. -/
theorem readUntilF_cons_ne (delim c : Char) (rest : List Char) (h : c ≠ delim) :
    readUntilF delim (c :: rest) =
      (c :: (readUntilF delim rest).1,
       (readUntilF delim rest).2.1, (readUntilF delim rest).2.2) := by
  simp [readUntilF, h]

/-- A line that ends in its only newline is consumed exactly by
`readUntilF`, leaving the rest of the stream untouched. -/
theorem readUntilF_line : ∀ (l t : List Char), l ≠ [] → l.getLast? = some '\n' →
    (∀ c ∈ l.dropLast, c ≠ '\n') →
    readUntilF '\n' (l ++ t) = (l, t, true) := by
  intro l
  induction l with
  | nil => intro t h0 _ _; exact absurd rfl h0
  | cons c l' ih =>
    intro t _ hl hin
    cases l' with
    | nil =>
      have hc : c = '\n' := by simpa using hl
      subst hc
      simp [readUntilF]
    | cons d l'' =>
      have hc : c ≠ '\n' := hin c (by simp)
      have hrec := ih t (by simp)
        (by rw [List.getLast?_cons_cons] at hl; exact hl)
        (fun x hx => hin x (by simp [List.dropLast] at hx ⊢; tauto))
      rw [List.cons_append, readUntilF_cons_ne _ _ _ hc, hrec]

/-- Three-element decomposition of a list of length at least three. -/
theorem exists_cons3 : ∀ {s : List Char}, 3 ≤ s.length →
    ∃ a b c t, s = a :: b :: c :: t := by
  intro s h
  match s, h with
  | a :: b :: c :: t, _ => exact ⟨a, b, c, t, rfl⟩

/-- One-element decomposition of a non-empty list. -/
theorem exists_cons1 : ∀ {s : List Char}, 1 ≤ s.length → ∃ a t, s = a :: t := by
  intro s h
  match s, h with
  | a :: t, _ => exact ⟨a, t, rfl⟩

/-- A Boolean that evaluates to `false` is not `true`. -/
theorem bool_ne_true {b : Bool} (h : b = false) : ¬(b = true) := by simp [h]

/-- One header-phase iteration of the loop (in non-dialect mode): a header
line is consumed whole, with separator lines replaced by the placeholder
token in both buffers and every other header line copied verbatim. -/
theorem header_step : ∀ (l rest sb content : List Char) (n : Nat),
    headerLineB l = true → 4 ≤ rest.length →
    processLoop (n + 1) (l ++ rest) false sb content =
      processLoop n rest false (sb ++ sepRw l) (content ++ sepRw l) := by
  intro l rest sb content n hl hlen
  have hcases : ((l = ['\n'] ∨ l = ['-', '-', '-', '\n']) ∨ commentLineB l = true) ∨
      yamlDirLineB l = true := by
    simpa [headerLineB, Bool.or_eq_true, decide_eq_true_eq] using hl
  rcases hcases with ((h | h) | h) | h
  · subst h
    rw [show ((['\n'] ++ rest : List Char)) = '\n' :: rest from rfl,
      show sepRw ['\n'] = ['\n'] from by decide]
    simp only [processLoop]
    rw [if_neg (show ¬(('\n' :: rest) : List Char).length < 4 from by simp; omega)]
    rw [if_pos (show peekBlank (('\n' :: rest).take 4) = true from by
      rw [List.take_succ_cons]; rfl)]
    rw [show readUntilF '\n' ('\n' :: rest) = (['\n'], rest, true) from by simp [readUntilF]]
    rw [if_pos rfl]
  · subst h
    rw [show ((['-', '-', '-', '\n'] ++ rest : List Char)) =
        '-' :: '-' :: '-' :: '\n' :: rest from rfl,
      show sepRw ['-', '-', '-', '\n'] = sepToken from by decide]
    simp only [processLoop]
    rw [if_neg (show ¬(('-' :: '-' :: '-' :: '\n' :: rest) : List Char).length < 4 from by
      simp)]
    rw [show (('-' :: '-' :: '-' :: '\n' :: rest) : List Char).take 4 =
      ['-', '-', '-', '\n'] from rfl]
    rw [if_neg (bool_ne_true (show peekBlank ['-', '-', '-', '\n'] = false from rfl))]
    rw [if_neg (bool_ne_true (show peekTagDirective ['-', '-', '-', '\n'] = false from rfl))]
    rw [if_neg (bool_ne_true (show peekSepSpace ['-', '-', '-', '\n'] = false from rfl))]
    rw [if_pos (show peekSepLine ['-', '-', '-', '\n'] = true from rfl)]
    rw [show readUntilF '\n' ('-' :: '-' :: '-' :: '\n' :: rest) =
      (['-', '-', '-', '\n'], rest, true) from
      readUntilF_line ['-', '-', '-', '\n'] rest (by decide) (by decide) (by decide)]
    rw [if_pos rfl]
  · obtain ⟨⟨hh, hlast⟩, hall⟩ : (l.head? = some '#' ∧ l.getLast? = some '\n') ∧
        ∀ c ∈ l.dropLast, ¬(c = '\n') := by
      simpa [commentLineB, Bool.and_eq_true, List.all_eq_true, decide_eq_true_eq] using h
    cases l with
    | nil => simp at hh
    | cons c0 l₂ =>
      have hc0 : c0 = '#' := by simpa using hh
      subst hc0
      obtain ⟨x, y, z, t, heq⟩ := exists_cons3 (show 3 ≤ (l₂ ++ rest).length from by
        simp [List.length_append]; omega)
      have hp : (('#' :: l₂) ++ rest).take 4 = ['#', x, y, z] := by
        rw [List.cons_append, heq]
        rfl
      have hrl : readUntilF '\n' (('#' :: l₂) ++ rest) = ('#' :: l₂, rest, true) :=
        readUntilF_line _ rest (by simp) hlast hall
      have hne : (('#' :: l₂) : List Char) ≠ "---\n".toList := by
        intro hx
        have hhd : '#' = '-' := by simpa using congrArg List.head? hx
        exact absurd hhd (by decide)
      have hsr : sepRw ('#' :: l₂) = '#' :: l₂ := by
        simp only [sepRw, if_neg hne]
      simp only [processLoop]
      rw [if_neg (show ¬((('#' :: l₂) ++ rest).length < 4) from by
        simp [List.length_append]; omega)]
      rw [hp]
      rw [if_neg (bool_ne_true (show peekBlank ['#', x, y, z] = false from rfl))]
      rw [if_neg (bool_ne_true (show peekTagDirective ['#', x, y, z] = false from rfl))]
      rw [if_neg (bool_ne_true (show peekSepSpace ['#', x, y, z] = false from rfl))]
      rw [if_neg (bool_ne_true (show peekSepLine ['#', x, y, z] = false from rfl))]
      rw [if_pos (show (peekComment ['#', x, y, z] || peekYamlDirective ['#', x, y, z]) = true
        from by rw [show peekComment ['#', x, y, z] = true from rfl]; exact Bool.true_or _)]
      rw [hrl]
      rw [if_pos rfl]
      rw [hsr]
  · obtain ⟨⟨hpre, hlast⟩, hall⟩ : (['%', 'Y', 'A'] <+: l ∧ l.getLast? = some '\n') ∧
        ∀ c ∈ l.dropLast, ¬(c = '\n') := by
      simpa [yamlDirLineB, Bool.and_eq_true, List.all_eq_true, decide_eq_true_eq] using h
    obtain ⟨l₃, rfl⟩ := hpre
    rw [show ((['%', 'Y', 'A'] ++ l₃ : List Char)) = '%' :: 'Y' :: 'A' :: l₃ from rfl]
      at hlast hall ⊢
    obtain ⟨x, t, heq⟩ := exists_cons1 (show 1 ≤ (l₃ ++ rest).length from by
      simp [List.length_append]; omega)
    have hp : (('%' :: 'Y' :: 'A' :: l₃) ++ rest).take 4 = ['%', 'Y', 'A', x] := by
      simp only [List.cons_append]
      rw [heq]
      rfl
    have hrl : readUntilF '\n' (('%' :: 'Y' :: 'A' :: l₃) ++ rest) =
        ('%' :: 'Y' :: 'A' :: l₃, rest, true) :=
      readUntilF_line _ rest (by simp) hlast hall
    have hne : (('%' :: 'Y' :: 'A' :: l₃) : List Char) ≠ "---\n".toList := by
      intro hx
      have hhd : '%' = '-' := by simpa using congrArg List.head? hx
      exact absurd hhd (by decide)
    have hsr : sepRw ('%' :: 'Y' :: 'A' :: l₃) = '%' :: 'Y' :: 'A' :: l₃ := by
      simp only [sepRw, if_neg hne]
    simp only [processLoop]
    rw [if_neg (show ¬((('%' :: 'Y' :: 'A' :: l₃) ++ rest).length < 4) from by
      simp [List.length_append]; omega)]
    rw [hp]
    rw [if_neg (bool_ne_true (show peekBlank ['%', 'Y', 'A', x] = false from rfl))]
    rw [if_neg (bool_ne_true (show peekTagDirective ['%', 'Y', 'A', x] = false from rfl))]
    rw [if_neg (bool_ne_true (show peekSepSpace ['%', 'Y', 'A', x] = false from rfl))]
    rw [if_neg (bool_ne_true (show peekSepLine ['%', 'Y', 'A', x] = false from rfl))]
    rw [if_pos (show (peekComment ['%', 'Y', 'A', x] || peekYamlDirective ['%', 'Y', 'A', x]) = true
      from by
        rw [show peekComment ['%', 'Y', 'A', x] = false from rfl,
          show peekYamlDirective ['%', 'Y', 'A', x] = true from rfl]
        rfl)]
    rw [hrl]
    rw [if_pos rfl]
    rw [hsr]

/-- Unpacking of the bulk-section predicate. -/
theorem bulkFirst_spec {b : List Char} (h : bulkFirstB b = true) :
    4 ≤ b.length ∧ peekBlank (b.take 4) = false ∧ peekTagDirective (b.take 4) = false ∧
    peekSepSpace (b.take 4) = false ∧ peekSepLine (b.take 4) = false ∧
    peekComment (b.take 4) = false ∧ peekYamlDirective (b.take 4) = false := by
  simp only [bulkFirstB, Bool.and_eq_true, Bool.not_eq_true', decide_eq_true_eq] at h
  tauto

/-- Worker for C6: over a stream made of header lines followed by a bulk
section, the loop (in non-dialect mode) rewrites exactly the header-phase
separator lines and appends the bulk verbatim; the side channel receives
the rewritten header only. -/
theorem c6_aux : ∀ (L : List (List Char)) (b sb content : List Char) (fuel : Nat),
    (∀ l ∈ L, headerLineB l = true) → bulkFirstB b = true →
    (L.flatten ++ b).length + 1 ≤ fuel →
    processLoop fuel (L.flatten ++ b) false sb content =
      ⟨content ++ (L.map sepRw).flatten ++ b, sb ++ (L.map sepRw).flatten⟩ := by
  intro L
  induction L with
  | nil =>
    intro b sb content fuel _ hb hfuel
    obtain ⟨hlen, h1, h2, h3, h4, h5, h6⟩ := bulkFirst_spec hb
    simp only [List.flatten_nil, List.nil_append, List.map_nil, List.append_nil] at hfuel ⊢
    cases fuel with
    | zero => omega
    | succ n =>
      simp only [processLoop]
      rw [if_neg (show ¬b.length < 4 from by omega)]
      rw [if_neg (bool_ne_true h1)]
      rw [if_neg (bool_ne_true h2)]
      rw [if_neg (bool_ne_true h3)]
      rw [if_neg (bool_ne_true h4)]
      rw [if_neg (bool_ne_true (show
        (peekComment (b.take 4) || peekYamlDirective (b.take 4)) = false from by
          rw [h5, h6]
          rfl))]
      rw [if_neg (show ¬((false : Bool) = true) from by simp)]
  | cons l L' ih =>
    intro b sb content fuel hall hb hfuel
    have hl := hall l (List.mem_cons_self l L')
    have hall' : ∀ x ∈ L', headerLineB x = true := fun x hx =>
      hall x (List.mem_cons_of_mem _ hx)
    have hblen : 4 ≤ b.length := (bulkFirst_spec hb).1
    have hlne : l ≠ [] := by
      intro h0
      rw [h0] at hl
      exact absurd hl (by decide)
    have hrest : 4 ≤ (L'.flatten ++ b).length := by
      simp [List.length_append]; omega
    rw [List.flatten_cons, List.append_assoc]
    cases fuel with
    | zero => exact absurd hfuel (by omega)
    | succ n =>
      rw [header_step l (L'.flatten ++ b) sb content n hl hrest]
      have hlen1 : 1 ≤ l.length := by
        cases l with
        | nil => exact absurd rfl hlne
        | cons a t => simp
      have hfuel' : (L'.flatten ++ b).length + 1 ≤ n := by
        rw [List.flatten_cons, List.append_assoc] at hfuel
        simp only [List.length_append] at hfuel ⊢
        omega
      rw [ih b (sb ++ sepRw l) (content ++ sepRw l) n hall' hb hfuel']
      simp [List.map_cons, List.flatten_cons, List.append_assoc]

/-- Claim C6 counterexample: an input with no dialect markers whose bare
separator line follows a non-structural line is normalized byte-identically
with the separator NOT rewritten — the placeholder token never appears, so
not every document-separator line is rewritten. -/
theorem claim_C6_counterexample :
    (processReadStream "x: 2\n---\ny: 3\n".toList).contentBuffer =
        "x: 2\n---\ny: 3\n".toList ∧
    containsSub "---\n".toList "x: 2\n---\ny: 3\n".toList = true ∧
    containsSub sepToken
        (processReadStream "x: 2\n---\ny: 3\n".toList).contentBuffer = false := by
  refine ⟨by rfl, by decide, by decide⟩

/-- Claim C6 (amended): for an input consisting of dialect-free header
lines (blank, comment, YAML-version directive, bare separator) followed by
a bulk section, the normalized output is byte-identical to the input except
that each header-phase document-separator line is rewritten to the
placeholder token; the Normalizer is otherwise a no-op on such standard
input (separator lines inside the bulk section are left as-is). -/
theorem claim_C6 : ∀ (L : List (List Char)) (b : List Char),
    (∀ l ∈ L, headerLineB l = true) → bulkFirstB b = true →
    processReadStream (L.flatten ++ b) =
      ⟨(L.map sepRw).flatten ++ b, (L.map sepRw).flatten⟩ := by
  intro L b hall hb
  have h := c6_aux L b [] [] ((L.flatten ++ b).length + 1) hall hb (le_refl _)
  simpa [processReadStream] using h

/-- Witness for C6: the theorem applied to a separator line, a comment
line, and a bulk body. -/
theorem claim_C6_witness :
    processReadStream (["---\n".toList, "# h\n".toList].flatten ++ "a: 1\n".toList) =
      ⟨(["---\n".toList, "# h\n".toList].map sepRw).flatten ++ "a: 1\n".toList,
       (["---\n".toList, "# h\n".toList].map sepRw).flatten⟩ :=
  claim_C6 ["---\n".toList, "# h\n".toList] "a: 1\n".toList (by decide) (by decide)
